import Mathlib

/-!
Verification of the PDF renamer pipeline (src/pdf_renamer.py).

The Python program is shallowly embedded: strings become Lean String values,
the JSON values returned by json.loads become the inductive Json, exceptions
become Except / Option results, and the per-file driver loop becomes a pure
fold over the list of discovered source files together with explicit
filesystem state (source directory listing and output directory listing).
External collaborators (PyMuPDF page rendering, the Gemini endpoint, the OS
clock) are modelled as per-file oracles recorded on each source file, exactly
as the specification treats them (black boxes returning a value or failure).

Modelling notes on the Python standard library pieces used by the program:
  - str.strip() strips the Unicode whitespace characters; the set is listed
    explicitly in isPyWhitespace below.
  - str.replace(c, "") removes every occurrence of the character c.
  - pathlib stem/suffix split a file name at its last dot, provided the dot
    is neither the first nor the last character of the name.
  - json.loads is embedded as a recursive-descent parser over characters.
    Floating point literals, NaN/Infinity and \u escapes denoting surrogate
    halves are outside the model and are mapped to a parse failure; no claim
    exercises them.  Python dict insertion semantics (a repeated key updates
    the earlier entry in place) are reproduced by insertPair.
-/

namespace PdfRenamer

/-- Unicode whitespace characters stripped by the Python str.strip method. -/
def isPyWhitespace (c : Char) : Bool :=
  c == ' ' || c == '\t' || c == '\n' || c == '\r' ||
  c == '\x0b' || c == '\x0c' ||
  c == '\x1c' || c == '\x1d' || c == '\x1e' || c == '\x1f' ||
  c == '\x85' || c == '\xa0' || c == '\u1680' ||
  c == '\u2000' || c == '\u2001' || c == '\u2002' || c == '\u2003' ||
  c == '\u2004' || c == '\u2005' || c == '\u2006' || c == '\u2007' ||
  c == '\u2008' || c == '\u2009' || c == '\u200a' ||
  c == '\u2028' || c == '\u2029' || c == '\u202f' || c == '\u205f' ||
  c == '\u3000'

/-- Python str.strip on a character list: drop whitespace from both ends. -/
def pyStripList (l : List Char) : List Char :=
  ((l.dropWhile isPyWhitespace).reverse.dropWhile isPyWhitespace).reverse

/-- Python str.strip on strings. -/
def pyStrip (s : String) : String :=
  ⟨pyStripList s.data⟩

/-- Python name.replace(c, ""): remove every occurrence of the character c. -/
def removeAll (name : String) (c : Char) : String :=
  ⟨name.data.filter (fun x => !(x == c))⟩

/-- The invalid-character string of sanitize_filename (pdf_renamer.py line 86). -/
def invalid_chars : String := "<>:\"/\\|?*"

/-- PDFRenamer.sanitize_filename (pdf_renamer.py lines 84-89): remove each
invalid character in turn, then strip surrounding whitespace. -/
def sanitize_filename (name : String) : String :=
  pyStrip (invalid_chars.data.foldl removeAll name)

/-- JSON values as produced by json.loads.  Numbers are integers; see the
file header for the documented model limitations. -/
inductive Json where
  | null : Json
  | bool (b : Bool) : Json
  | num (n : Int) : Json
  | str (s : String) : Json
  | arr (elems : List Json) : Json
  | obj (fields : List (String × Json)) : Json

/-- Python truthiness of a JSON value (bool(x) for the decoded object). -/
def isTruthy : Json → Bool
  | .null => false
  | .bool b => b
  | .num n => !(n == 0)
  | .str s => !(s == "")
  | .arr xs => !xs.isEmpty
  | .obj fs => !fs.isEmpty

/-- JSON document whitespace accepted between tokens by json.loads. -/
def isJsonWs (c : Char) : Bool :=
  c == ' ' || c == '\t' || c == '\n' || c == '\r'

/-- Skip JSON token whitespace. -/
def skipWs (l : List Char) : List Char :=
  l.dropWhile isJsonWs

/-- Python dict insertion: a repeated key updates the existing entry in
place, a fresh key is appended at the end. -/
def insertPair (fields : List (String × Json)) (key : String) (v : Json) :
    List (String × Json) :=
  if fields.any (fun kv => kv.1 == key) then
    fields.map (fun kv => if kv.1 == key then (kv.1, v) else kv)
  else
    fields ++ [(key, v)]

/-- String-body scanner of json.loads (after the opening quote): returns the
decoded string and the remaining characters, or none on a malformed body. -/
def parseStrAux : List Char → List Char → Option (String × List Char)
  | [], _ => none
  | '\\' :: 'u' :: a :: b :: c :: d :: rest, acc =>
    let isHex : Char → Bool := fun x =>
      x.isDigit || ('a' ≤ x && x ≤ 'f') || ('A' ≤ x && x ≤ 'F')
    if isHex a && isHex b && isHex c && isHex d then
      let hv : Char → Nat := fun x =>
        if x.isDigit then x.toNat - 48
        else if x.toNat ≥ 97 then x.toNat - 87 else x.toNat - 55
      let n : Nat := 4096 * hv a + 256 * hv b + 16 * hv c + hv d
      if 0xd800 ≤ n && n ≤ 0xdfff then none
      else parseStrAux rest (Char.ofNat n :: acc)
    else none
  | '\\' :: e :: rest, acc =>
    if e == '"' then parseStrAux rest ('"' :: acc)
    else if e == '\\' then parseStrAux rest ('\\' :: acc)
    else if e == '/' then parseStrAux rest ('/' :: acc)
    else if e == 'b' then parseStrAux rest ('\x08' :: acc)
    else if e == 'f' then parseStrAux rest ('\x0c' :: acc)
    else if e == 'n' then parseStrAux rest ('\n' :: acc)
    else if e == 'r' then parseStrAux rest ('\r' :: acc)
    else if e == 't' then parseStrAux rest ('\t' :: acc)
    else none
  | c :: rest, acc =>
    if c == '"' then some (⟨acc.reverse⟩, rest)
    else if c.toNat < 32 then none
    else parseStrAux rest (c :: acc)

/-- Digit run value accumulator for JSON integer literals. -/
def digitsVal (l : List Char) : Nat :=
  l.foldl (fun a c => 10 * a + (c.toNat - 48)) 0

/-- Integer part of a JSON number per the json grammar: a single 0, or a
nonzero digit followed by a digit run. -/
def parseNumNat : List Char → Option (Nat × List Char)
  | '0' :: rest => some (0, rest)
  | c :: rest =>
    if c.isDigit then
      let ds := rest.takeWhile Char.isDigit
      some (digitsVal (c :: ds), rest.dropWhile Char.isDigit)
    else none
  | [] => none

/-- JSON number literal.  A continuation with a fraction or exponent part is
a float, which the model maps to a parse failure (documented limitation). -/
def parseNum (l : List Char) : Option (Json × List Char) :=
  let core : List Char → Option (Json × List Char) := fun l' =>
    match l' with
    | '-' :: rest =>
      (parseNumNat rest).map (fun p => (Json.num (-(p.1 : Int)), p.2))
    | _ => (parseNumNat l').map (fun p => (Json.num (p.1 : Int), p.2))
  match core l with
  | none => none
  | some (j, rest) =>
    match rest with
    | '.' :: _ => none
    | 'e' :: _ => none
    | 'E' :: _ => none
    | _ => some (j, rest)

mutual

/-- One JSON value (json.loads scanner), fuelled by the input length. -/
def parseValue : Nat → List Char → Option (Json × List Char)
  | 0, _ => none
  | fuel + 1, l =>
    match l with
    | '{' :: cs =>
      match skipWs cs with
      | '}' :: rest => some (.obj [], rest)
      | cs' => parseMembers fuel cs' []
    | '[' :: cs =>
      match skipWs cs with
      | ']' :: rest => some (.arr [], rest)
      | cs' => parseElems fuel cs' []
    | '"' :: cs => (parseStrAux cs []).map (fun p => (Json.str p.1, p.2))
    | 't' :: 'r' :: 'u' :: 'e' :: rest => some (.bool true, rest)
    | 'f' :: 'a' :: 'l' :: 's' :: 'e' :: rest => some (.bool false, rest)
    | 'n' :: 'u' :: 'l' :: 'l' :: rest => some (.null, rest)
    | _ => parseNum l

/-- Members of a JSON object after the opening brace and whitespace. -/
def parseMembers : Nat → List Char → List (String × Json) →
    Option (Json × List Char)
  | 0, _, _ => none
  | fuel + 1, l, acc =>
    match l with
    | '"' :: cs =>
      match parseStrAux cs [] with
      | none => none
      | some (key, rest) =>
        match skipWs rest with
        | ':' :: rest2 =>
          match parseValue fuel (skipWs rest2) with
          | none => none
          | some (v, rest3) =>
            match skipWs rest3 with
            | ',' :: rest4 =>
              match skipWs rest4 with
              | rest5 => parseMembers fuel rest5 (insertPair acc key v)
            | '}' :: rest4 => some (.obj (insertPair acc key v), rest4)
            | _ => none
        | _ => none
    | _ => none

/-- Elements of a JSON array after the opening bracket and whitespace. -/
def parseElems : Nat → List Char → List Json → Option (Json × List Char)
  | 0, _, _ => none
  | fuel + 1, l, acc =>
    match parseValue fuel l with
    | none => none
    | some (v, rest) =>
      match skipWs rest with
      | ',' :: rest2 => parseElems fuel (skipWs rest2) (v :: acc)
      | ']' :: rest2 => some (.arr (v :: acc).reverse, rest2)
      | _ => none

end

/-- json.loads on a character list: one value, surrounding whitespace
allowed, trailing data rejected; any failure is none (the raised
JSONDecodeError). -/
def json_loads_chars (l : List Char) : Option Json :=
  match parseValue (l.length + 1) (skipWs l) with
  | some (j, rest) => if skipWs rest = [] then some j else none
  | none => none

/-- json.loads on strings. -/
def json_loads (s : String) : Option Json :=
  json_loads_chars s.data

/-- Python dict.get(key, default) on the field list of a decoded object.
Keys built by insertPair are unique, so first match is the dict entry. -/
def dictGet (fields : List (String × Json)) (key : String) (dflt : Json) :
    Json :=
  match fields.find? (fun kv => kv.1 == key) with
  | some kv => kv.2
  | none => dflt

/-- Python exceptions that the embedded fragments can raise. -/
inductive PyErr where
  | attributeError : PyErr
  | fuelExhausted : PyErr
deriving DecidableEq, Repr

/-- Applying sanitize_filename to a field value: string methods exist only on
strings, every other value raises AttributeError (name.replace on line 88). -/
def sanitizeValue : Json → Except PyErr String
  | .str s => .ok (sanitize_filename s)
  | _ => .error .attributeError

/-- PDFRenamer.generate_new_name (pdf_renamer.py lines 91-99): read the five
fields with their defaults, sanitize each, and assemble the filename.
Calling .get on a non-dict decoded value raises AttributeError. -/
def generate_new_name (metadata : Json) (original_ext : String) :
    Except PyErr String :=
  match metadata with
  | .obj fields => do
    let app ← sanitizeValue (dictGet fields "Application" (.str "Unknown"))
    let scope ← sanitizeValue (dictGet fields "MarketScope" (.str "WW"))
    let title ← sanitizeValue (dictGet fields "FileName" (.str "Untitled"))
    let source ← sanitizeValue (dictGet fields "Source" (.str "Unknown"))
    let date ← sanitizeValue (dictGet fields "Date" (.str "000000"))
    .ok (app ++ "-" ++ scope ++ "-" ++ title ++ "-" ++ source ++ "-" ++
         date ++ original_ext)
  | _ => .error .attributeError

/-- The leading fence marker stripped on line 74-75 of pdf_renamer.py. -/
def fenceLead : List Char := "```json".data

/-- The trailing fence marker stripped on line 76-77 of pdf_renamer.py. -/
def fenceTail : List Char := "```".data

/-- The response-cleaning steps of PDFRenamer.analyze_cover (lines 72-79):
strip, drop a leading three-backtick-json marker, drop a trailing
three-backtick marker, strip again. -/
def clean_response (l : List Char) : List Char :=
  let t := pyStripList l
  let t := if fenceLead.isPrefixOf t then t.drop 7 else t
  let t := if fenceTail.isSuffixOf t then t.take (t.length - 3) else t
  pyStripList t

/-- PDFRenamer.analyze_cover (pdf_renamer.py lines 47-82), abstracted over
the external service: the argument is the textual reply of the model, none
standing for a raised network error.  Every failure is caught and surfaces
as none (lines 80-82). -/
def analyze_cover (response_text : Option String) : Option Json :=
  match response_text with
  | none => none
  | some raw => json_loads_chars (clean_response raw.data)

/-- Python substring containment (the in operator on str). -/
def listContainsSub (pat : List Char) : List Char → Bool
  | [] => pat.isEmpty
  | c :: cs => pat.isPrefixOf (c :: cs) || listContainsSub pat cs

/-- Python pat in s for strings. -/
def containsSub (s pat : String) : Bool :=
  listContainsSub pat.data s.data

/-- Python stem.rsplit("_", 1)[0]: everything before the last underscore,
or the whole string when there is none. -/
def rsplitHead (s : String) : String :=
  match s.data.reverse.dropWhile (fun c => !(c == '_')) with
  | [] => s
  | _ :: rest => ⟨rest.reverse⟩

/-- The duplicate-handling stem update of pdf_renamer.py lines 141-142: if
the stem contains the suffix of the previous counter and the counter is
above one, drop the last underscore-separated chunk. -/
def stripStem (counter : Nat) (stem : String) : String :=
  if containsSub stem ("_" ++ Nat.repr (counter - 1)) && decide (1 < counter)
  then rsplitHead stem
  else stem

/-- Index of the last dot of a file name, none when there is no dot
(Python str.rfind of pathlib). -/
def rfindDot : List Char → Option Nat
  | [] => none
  | c :: cs =>
    match rfindDot cs with
    | some i => some (i + 1)
    | none => if c == '.' then some 0 else none

/-- A file name split into pathlib stem and suffix. -/
structure FsPath where
  stem : String
  suffix : String
deriving DecidableEq, Repr

/-- pathlib stem/suffix of a file name: split at the last dot provided it is
neither the first nor the last character, otherwise the suffix is empty. -/
def splitPath (name : String) : FsPath :=
  match rfindDot name.data with
  | some i =>
    if 0 < i ∧ i + 1 < name.data.length then
      ⟨⟨name.data.take i⟩, ⟨name.data.drop i⟩⟩
    else ⟨name, ""⟩
  | none => ⟨name, ""⟩

/-- The duplicate-handling while loop of PDFRenamer.process_files
(pdf_renamer.py lines 137-144).  The directory listing of the output
directory is the list of file names dir; one existence check is one
membership test, counted in the accumulator.  The fuel argument bounds the
number of iterations; the result is the unique name found together with the
number of existence checks performed. -/
def resolveAux (dir : List String) :
    Nat → Nat → String → Nat → Option (String × Nat)
  | 0, _, _, _ => none
  | fuel + 1, counter, name, checks =>
    if name ∈ dir then
      let p := splitPath name
      let stem := stripStem counter p.stem
      resolveAux dir fuel (counter + 1)
        (stem ++ "_" ++ Nat.repr counter ++ p.suffix) (checks + 1)
    else
      some (name, checks + 1)

/-- One source file of the batch together with the per-file behaviour of the
external collaborators: the rendered cover bytes (none when
get_pdf_cover_image fails), the textual reply of the classification service
(none when the call raises), and whether the OS rename succeeds. -/
structure SrcFile where
  stem : String
  suffix : String
  cover : Option (List Nat)
  response : Option String
  renameOk : Bool
deriving DecidableEq, Repr

/-- The name of a source file (pdf_path.name). -/
def SrcFile.name (f : SrcFile) : String :=
  f.stem ++ f.suffix

/-- The filesystem state the pipeline can mutate: the listing of the input
directory and the listing of the output directory. -/
structure FsState where
  srcNames : List String
  outNames : List String
deriving DecidableEq, Repr

/-- Console output of the per-file pipeline, plus the pacing sleep. -/
inductive Event where
  | processing (name : String) : Event
  | failExtract : Event
  | failClassify : Event
  | dryRunLog (src dst : String) : Event
  | movedLog (dst : String) : Event
  | moveError : Event
  | separator : Event
  | sleep : Event
deriving DecidableEq, Repr

/-- The body of the per-file loop of PDFRenamer.process_files (pdf_renamer.py
lines 112-157): extract the cover, classify, check truthiness, synthesize the
name, resolve duplicates, then either log (dry run) or rename.  The result is
the new filesystem state, the emitted events in order, and the uncaught
exception if one was raised (which aborts the whole loop). -/
def stepFile (dry_run : Bool) (st : FsState) (f : SrcFile) :
    FsState × List Event × Option PyErr :=
  let procEv := Event.processing f.name
  match f.cover with
  | none => (st, [procEv, .failExtract], none)
  | some _ =>
    match analyze_cover f.response with
    | none => (st, [procEv, .failClassify], none)
    | some metadata =>
      if isTruthy metadata = false then (st, [procEv, .failClassify], none)
      else
        match generate_new_name metadata f.suffix with
        | .error e => (st, [procEv], some e)
        | .ok new_filename =>
          match resolveAux st.outNames (st.outNames.length + 2) 1
              new_filename 0 with
          | none => (st, [procEv], some .fuelExhausted)
          | some (resolved, _) =>
            if dry_run then
              (st, [procEv, .dryRunLog f.name resolved, .separator, .sleep],
               none)
            else if f.renameOk then
              ({ srcNames := st.srcNames.erase f.name,
                 outNames := resolved :: st.outNames },
               [procEv, .movedLog resolved, .separator, .sleep], none)
            else
              (st, [procEv, .moveError, .separator, .sleep], none)

/-- PDFRenamer.process_files over the discovered file list: fold stepFile,
aborting when a step raises. -/
def process_files (dry_run : Bool) (st : FsState) :
    List SrcFile → FsState × List Event × Option PyErr
  | [] => (st, [], none)
  | f :: fs =>
    match stepFile dry_run st f with
    | (st', evs, some e) => (st', evs, some e)
    | (st', evs, none) =>
      match process_files dry_run st' fs with
      | (st'', evs', err) => (st'', evs ++ evs', err)

/-- An extension that pathlib splitting keeps stable through the resolver
loop: a dot followed by a nonempty dot-free remainder (such as .pdf). -/
def StableExt (ext : String) : Prop :=
  ∃ rest, ext.data = '.' :: rest ∧ rest ≠ [] ∧ '.' ∉ rest

/-- The candidate file name of the resolver at counter c + 1: the original
stem followed by one underscore suffix and the extension. -/
def suffixed (base : String) (k : Nat) : String :=
  base ++ "_" ++ Nat.repr k ++ ".pdf"

/-- Output-directory listing holding base.pdf together with
base_1.pdf ... base_(N-1).pdf. -/
def dirN (base : String) (N : Nat) : List String :=
  (base ++ ".pdf") :: (List.range' 1 (N - 1)).map (suffixed base)

/-- A metadata record holding exactly the present subset of the five fields,
each with a string value. -/
def mkMeta (a s t src d : Option String) : Json :=
  .obj ((a.map (fun v => ("Application", Json.str v))).toList ++
        (s.map (fun v => ("MarketScope", Json.str v))).toList ++
        (t.map (fun v => ("FileName", Json.str v))).toList ++
        (src.map (fun v => ("Source", Json.str v))).toList ++
        (d.map (fun v => ("Date", Json.str v))).toList)

/-! Concrete fixtures used by the witnesses of the driver claims: a batch of
three source files in which only the second fails (cover extraction returns
none), processed in execute mode. -/

/-- Classification reply for the first fixture file. -/
def fixtureReply1 : String :=
  "\x7b\"Application\": \"AI\", \"MarketScope\": \"WW\", \"FileName\": \"T1\", \"Source\": \"GS\", \"Date\": \"240101\"\x7d"

/-- Classification reply for the third fixture file. -/
def fixtureReply3 : String :=
  "\x7b\"Application\": \"AI\", \"MarketScope\": \"WW\", \"FileName\": \"T3\", \"Source\": \"GS\", \"Date\": \"240102\"\x7d"

/-- The record decoded from fixtureReply1. -/
def fixtureMeta1 : Json :=
  .obj [("Application", .str "AI"), ("MarketScope", .str "WW"),
        ("FileName", .str "T1"), ("Source", .str "GS"),
        ("Date", .str "240101")]

/-- First fixture file: everything succeeds. -/
def fixtureFile1 : SrcFile :=
  ⟨"r1", ".pdf", some [0], some fixtureReply1, true⟩

/-- Second fixture file: cover extraction fails. -/
def fixtureFile2 : SrcFile := ⟨"r2", ".pdf", none, some "x", true⟩

/-- Third fixture file: everything succeeds. -/
def fixtureFile3 : SrcFile :=
  ⟨"r3", ".pdf", some [0], some fixtureReply3, true⟩

/-- Initial filesystem state of the fixture batch. -/
def fixtureState0 : FsState := ⟨["r1.pdf", "r2.pdf", "r3.pdf"], []⟩

/-- Filesystem state after the first fixture file is moved. -/
def fixtureState1 : FsState :=
  ⟨["r2.pdf", "r3.pdf"], ["AI-WW-T1-GS-240101.pdf"]⟩

/-- Events emitted while the first fixture file is processed. -/
def fixtureLog1 : List Event :=
  [.processing "r1.pdf", .movedLog "AI-WW-T1-GS-240101.pdf", .separator,
   .sleep]

/-- JSON payload used in the fenced-reply witness. -/
def fencedPayload : String := "\x7b\"Application\": \"AI\"\x7d"

/-! Facts about the decimal representation used by the f-string suffixes. -/

theorem digitChar_not_underscore (n : Nat) : Nat.digitChar n ≠ '_' := by
  by_cases h : n < 16
  · interval_cases n <;> decide
  · unfold Nat.digitChar
    rw [if_neg (by omega : ¬ n = 0), if_neg (by omega : ¬ n = 1),
      if_neg (by omega : ¬ n = 2), if_neg (by omega : ¬ n = 3),
      if_neg (by omega : ¬ n = 4), if_neg (by omega : ¬ n = 5),
      if_neg (by omega : ¬ n = 6), if_neg (by omega : ¬ n = 7),
      if_neg (by omega : ¬ n = 8), if_neg (by omega : ¬ n = 9),
      if_neg (by omega : ¬ n = 10), if_neg (by omega : ¬ n = 11),
      if_neg (by omega : ¬ n = 12), if_neg (by omega : ¬ n = 13),
      if_neg (by omega : ¬ n = 14), if_neg (by omega : ¬ n = 15)]
    decide

theorem toDigitsCore_succ (b f n : Nat) (acc : List Char) :
    Nat.toDigitsCore b (f + 1) n acc =
      if n / b = 0 then Nat.digitChar (n % b) :: acc
      else Nat.toDigitsCore b f (n / b) (Nat.digitChar (n % b) :: acc) := rfl

theorem toDigitsCore_not_underscore :
    ∀ (fuel n : Nat) (acc : List Char), (∀ c ∈ acc, c ≠ '_') →
      ∀ c ∈ Nat.toDigitsCore 10 fuel n acc, c ≠ '_' := by
  intro fuel
  induction fuel with
  | zero => intro n acc h c hc; exact h c hc
  | succ f ih =>
    intro n acc h c hc
    rw [toDigitsCore_succ] at hc
    split at hc
    · rcases List.mem_cons.mp hc with hc | hc
      · exact hc ▸ digitChar_not_underscore _
      · exact h c hc
    · refine ih _ _ ?_ c hc
      intro x hx
      rcases List.mem_cons.mp hx with hx | hx
      · exact hx ▸ digitChar_not_underscore _
      · exact h x hx

theorem repr_not_underscore (n : Nat) : ∀ c ∈ (Nat.repr n).data, c ≠ '_' := by
  intro c hc
  have : (Nat.repr n).data = Nat.toDigitsCore 10 (n + 1) n [] := rfl
  rw [this] at hc
  exact toDigitsCore_not_underscore _ _ _ (by intro x hx; cases hx) c hc

theorem toDigitsCore_acc (b : Nat) :
    ∀ (fuel n : Nat) (acc : List Char),
      Nat.toDigitsCore b fuel n acc = Nat.toDigitsCore b fuel n [] ++ acc := by
  intro fuel
  induction fuel with
  | zero => intro n acc; rfl
  | succ f ih =>
    intro n acc
    rw [toDigitsCore_succ, toDigitsCore_succ]
    split
    · rfl
    · rw [ih (n / b) (Nat.digitChar (n % b) :: acc),
        ih (n / b) [Nat.digitChar (n % b)]]
      simp

theorem digitChar_val (n : Nat) (h : n < 10) :
    (Nat.digitChar n).toNat - 48 = n := by
  interval_cases n <;> decide

theorem digitsVal_toDigitsCore :
    ∀ fuel n, n < fuel → digitsVal (Nat.toDigitsCore 10 fuel n []) = n := by
  intro fuel
  induction fuel with
  | zero => intro n hn; omega
  | succ f ih =>
    intro n hn
    rw [toDigitsCore_succ]
    by_cases h : n / 10 = 0
    · have hlt : n < 10 := by
        have := Nat.div_add_mod n 10
        have hm : n % 10 < 10 := Nat.mod_lt n (by omega)
        omega
      rw [if_pos h]
      show digitsVal [Nat.digitChar (n % 10)] = n
      have : n % 10 = n := Nat.mod_eq_of_lt hlt
      simp [digitsVal, this, digitChar_val n hlt]
    · rw [if_neg h, toDigitsCore_acc]
      have hv : digitsVal (Nat.toDigitsCore 10 f (n / 10) [] ++
          [Nat.digitChar (n % 10)]) =
          10 * digitsVal (Nat.toDigitsCore 10 f (n / 10) []) +
            ((Nat.digitChar (n % 10)).toNat - 48) := by
        simp [digitsVal, List.foldl_append]
      rw [hv, ih (n / 10) (by omega), digitChar_val _ (Nat.mod_lt n (by omega))]
      omega

theorem repr_inj {m n : Nat} (h : Nat.repr m = Nat.repr n) : m = n := by
  have hd : (Nat.repr m).data = (Nat.repr n).data := by rw [h]
  have hm : (Nat.repr m).data = Nat.toDigitsCore 10 (m + 1) m [] := rfl
  have hn : (Nat.repr n).data = Nat.toDigitsCore 10 (n + 1) n [] := rfl
  have := congrArg digitsVal (hm ▸ hn ▸ hd)
  rwa [digitsVal_toDigitsCore _ _ (Nat.lt_succ_self m),
    digitsVal_toDigitsCore _ _ (Nat.lt_succ_self n)] at this

/-! String and list helpers for the resolver proofs. -/

theorem string_mk_data (s : String) : String.mk s.data = s := rfl

theorem data_ne_nil {s : String} (h : s ≠ "") : s.data ≠ [] := by
  intro hd
  apply h
  cases s with
  | mk l =>
    simp at hd
    rw [hd]

theorem dropWhile_append_all {p : Char → Bool} :
    ∀ (l₁ l₂ : List Char), (∀ c ∈ l₁, p c = true) →
      List.dropWhile p (l₁ ++ l₂) = List.dropWhile p l₂ := by
  intro l₁
  induction l₁ with
  | nil => intro l₂ _; rfl
  | cons c cs ih =>
    intro l₂ h
    rw [List.cons_append, List.dropWhile_cons, if_pos (h c (by simp))]
    exact ih l₂ (fun x hx => h x (by simp [hx]))

theorem rsplitHead_append (S R : String) (h : ∀ c ∈ R.data, c ≠ '_') :
    rsplitHead (S ++ "_" ++ R) = S := by
  unfold rsplitHead
  have hd : (S ++ "_" ++ R).data = S.data ++ '_' :: R.data := by
    simp [String.data_append]
  rw [hd]
  have hrev : (S.data ++ '_' :: R.data).reverse =
      R.data.reverse ++ '_' :: S.data.reverse := by
    simp
  rw [hrev]
  rw [dropWhile_append_all _ _ (by
    intro c hc
    have : c ∈ R.data := List.mem_reverse.mp hc
    simp [h c this])]
  rw [List.dropWhile_cons]
  simp

theorem listContainsSub_of_suffix :
    ∀ {l pat : List Char}, pat <:+ l → listContainsSub pat l = true := by
  intro l
  induction l with
  | nil =>
    intro pat h
    have : pat = [] := List.eq_nil_of_suffix_nil h
    simp [listContainsSub, this]
  | cons c cs ih =>
    intro pat h
    rcases List.suffix_cons_iff.mp h with h | h
    · simp [listContainsSub, h, List.isPrefixOf_iff_prefix]
    · simp [listContainsSub, ih h]

theorem containsSub_of_suffix (s pat : String) (h : pat.data <:+ s.data) :
    containsSub s pat = true :=
  listContainsSub_of_suffix h

theorem stripStem_append (S : String) (c : Nat) (hc : 1 < c) :
    stripStem c (S ++ "_" ++ Nat.repr (c - 1)) = S := by
  unfold stripStem
  have h1 : containsSub (S ++ "_" ++ Nat.repr (c - 1))
      ("_" ++ Nat.repr (c - 1)) = true := by
    apply containsSub_of_suffix
    refine ⟨S.data, ?_⟩
    simp [String.data_append]
  rw [h1, decide_eq_true hc]
  rw [if_pos (by decide : (true && true) = true)]
  exact rsplitHead_append S (Nat.repr (c - 1)) (repr_not_underscore (c - 1))

theorem stripStem_one (stem : String) : stripStem 1 stem = stem := by
  unfold stripStem
  simp

/-! pathlib stem/suffix facts. -/

theorem rfindDot_not_mem : ∀ {l : List Char}, '.' ∉ l → rfindDot l = none := by
  intro l
  induction l with
  | nil => intro _; rfl
  | cons c cs ih =>
    intro h
    have hc : c ≠ '.' := by intro hh; exact h (by simp [hh])
    have hcs : '.' ∉ cs := by intro hh; exact h (by simp [hh])
    unfold rfindDot
    rw [ih hcs]
    simp [hc]

theorem rfindDot_append_dot :
    ∀ (l rest : List Char), '.' ∉ rest →
      rfindDot (l ++ '.' :: rest) = some l.length := by
  intro l
  induction l with
  | nil =>
    intro rest h
    rw [List.nil_append]
    unfold rfindDot
    rw [rfindDot_not_mem h]
    simp
  | cons c cs ih =>
    intro rest h
    rw [List.cons_append]
    unfold rfindDot
    rw [ih rest h]
    simp

theorem splitPath_stable (Y ext : String) (hY : Y ≠ "") (h : StableExt ext) :
    splitPath (Y ++ ext) = ⟨Y, ext⟩ := by
  obtain ⟨rest, he, hne, hnd⟩ := h
  unfold splitPath
  have hd : (Y ++ ext).data = Y.data ++ '.' :: rest := by
    simp [String.data_append, he]
  rw [hd, rfindDot_append_dot _ _ hnd]
  have h0 : 0 < Y.data.length := List.length_pos.mpr (data_ne_nil hY)
  have h1 : Y.data.length + 1 < (Y.data ++ '.' :: rest).length := by
    simp only [List.length_append, List.length_cons]
    cases rest with
    | nil => exact absurd rfl hne
    | cons r rs => simp
  dsimp only
  rw [if_pos ⟨h0, h1⟩]
  rw [List.take_left, List.drop_left]
  have hext : String.mk ('.' :: rest) = ext := by
    rw [← he]
  rw [string_mk_data, hext]

theorem string_eq_of_data {s t : String} (h : s.data = t.data) : s = t := by
  cases s
  cases t
  simp at h
  rw [h]

/-! The fixture directory of the collision-resolver claim: exactly the
files base.pdf, base_1.pdf, ..., base_(N-1).pdf exist. -/

theorem suffixed_data (base : String) (k : Nat) :
    (suffixed base k).data =
      base.data ++ '_' :: ((Nat.repr k).data ++ ['.', 'p', 'd', 'f']) := by
  simp [suffixed, String.data_append]

theorem suffixed_ne_base (base : String) (k : Nat) :
    suffixed base k ≠ base ++ ".pdf" := by
  intro h
  have hd := congrArg String.data h
  rw [suffixed_data] at hd
  simp only [String.data_append] at hd
  have : '_' :: ((Nat.repr k).data ++ ['.', 'p', 'd', 'f']) =
      (".pdf").data := List.append_cancel_left hd
  simp at this

theorem suffixed_inj (base : String) {i j : Nat}
    (h : suffixed base i = suffixed base j) : i = j := by
  have hd := congrArg String.data h
  rw [suffixed_data, suffixed_data] at hd
  have h2 := List.append_cancel_left hd
  have h4 : (Nat.repr i).data ++ ['.', 'p', 'd', 'f'] =
      (Nat.repr j).data ++ ['.', 'p', 'd', 'f'] := by
    injection h2
  have h5 : (Nat.repr i).data = (Nat.repr j).data :=
    List.append_cancel_right h4
  exact repr_inj (string_eq_of_data h5)

theorem mem_dirN (base : String) (N i : Nat) (h1 : 1 ≤ i) (h2 : i ≤ N - 1) :
    suffixed base i ∈ dirN base N := by
  apply List.mem_cons.mpr
  right
  apply List.mem_map.mpr
  refine ⟨i, ?_, rfl⟩
  apply List.mem_range'.mpr
  exact ⟨i - 1, by omega, by omega⟩

theorem not_mem_dirN (base : String) (N : Nat) (hN : 1 ≤ N) :
    suffixed base N ∉ dirN base N := by
  intro h
  rcases List.mem_cons.mp h with h | h
  · exact suffixed_ne_base base N h
  · rcases List.mem_map.mp h with ⟨i, hi, heq⟩
    rcases List.mem_range'.mp hi with ⟨j, hj, hij⟩
    have : i = N := suffixed_inj base heq
    omega

theorem suffixed_ne_empty (base : String) (k : Nat) : suffixed base k ≠ "" := by
  intro h
  have hd := congrArg String.data h
  rw [suffixed_data] at hd
  simp at hd

theorem stableExt_pdf : StableExt ".pdf" :=
  ⟨['p', 'd', 'f'], rfl, by simp, by decide⟩

/-- Loop invariant of the resolver on the fixture directory: entering the
existence check with counter c (2 ≤ c ≤ N + 1) and candidate
base_(c-1).pdf, the loop ends at base_N.pdf after N + 2 - c further
existence checks. -/
theorem resolveAux_dirN_loop (base : String) (hb : base ≠ "") (N : Nat)
    (hN : 1 ≤ N) :
    ∀ fuel c checks, 2 ≤ c → c ≤ N + 1 → N + 2 - c ≤ fuel →
      resolveAux (dirN base N) fuel c (suffixed base (c - 1)) checks =
        some (suffixed base N, checks + (N + 2 - c)) := by
  intro fuel
  induction fuel with
  | zero => intro c checks h2 hc hf; omega
  | succ f ih =>
    intro c checks h2 hc hf
    unfold resolveAux
    by_cases hcN : c ≤ N
    · rw [if_pos (mem_dirN base N (c - 1) (by omega) (by omega))]
      have hsplit : splitPath (suffixed base (c - 1)) =
          ⟨base ++ "_" ++ Nat.repr (c - 1), ".pdf"⟩ := by
        apply splitPath_stable _ _ ?_ stableExt_pdf
        intro hmt
        have hd := congrArg String.data hmt
        simp [String.data_append] at hd
      rw [hsplit]
      dsimp only
      have hstrip : stripStem c (base ++ "_" ++ Nat.repr (c - 1)) = base :=
        stripStem_append base c (by omega)
      rw [hstrip]
      have hnext : base ++ "_" ++ Nat.repr c ++ ".pdf" =
          suffixed base (c + 1 - 1) := rfl
      rw [hnext]
      rw [ih (c + 1) (checks + 1) (by omega) (by omega) (by omega)]
      have harith : checks + 1 + (N + 2 - (c + 1)) = checks + (N + 2 - c) := by
        omega
      rw [harith]
    · have hceq : c = N + 1 := by omega
      rw [if_neg (by rw [hceq, show N + 1 - 1 = N from rfl]
                     exact not_mem_dirN base N hN)]
      rw [hceq]
      have : N + 2 - (N + 1) = 1 := by omega
      rw [this, show N + 1 - 1 = N from rfl]

/-- Entry point of the fixture run: resolving base.pdf against the fixture
directory ends at base_N.pdf after exactly N + 1 existence checks. -/
theorem resolveAux_dirN (base : String) (hb : base ≠ "") (N : Nat)
    (hN : 1 ≤ N) (fuel : Nat) (hf : N + 1 ≤ fuel) :
    resolveAux (dirN base N) fuel 1 (base ++ ".pdf") 0 =
      some (suffixed base N, N + 1) := by
  match fuel, hf with
  | f + 1, hf =>
    unfold resolveAux
    have hmem : base ++ ".pdf" ∈ dirN base N := by
      unfold dirN
      exact List.mem_cons_self _ _
    rw [if_pos hmem]
    rw [splitPath_stable base ".pdf" hb stableExt_pdf]
    dsimp only
    rw [stripStem_one]
    have hname : base ++ "_" ++ Nat.repr 1 ++ ".pdf" =
        suffixed base (2 - 1) := rfl
    rw [hname]
    rw [resolveAux_dirN_loop base hb N hN f 2 1 (by omega) (by omega)
      (by omega)]
    have : 1 + (N + 2 - 2) = N + 1 := by omega
    rw [this]

/-- Loop invariant for non-accumulation: entering the loop at counter
c ≥ 2 with candidate stem S_(c-1) over a stable extension, every possible
result carries exactly one suffix over the original stem S. -/
theorem resolveAux_shape (dir : List String) (S ext : String) (hS : S ≠ "")
    (hext : StableExt ext) :
    ∀ fuel c checks out m, 2 ≤ c →
      resolveAux dir fuel c (S ++ "_" ++ Nat.repr (c - 1) ++ ext) checks =
        some (out, m) →
      ∃ k, 1 ≤ k ∧ out = S ++ "_" ++ Nat.repr k ++ ext := by
  intro fuel
  induction fuel with
  | zero =>
    intro c checks out m h2 h
    simp [resolveAux] at h
  | succ f ih =>
    intro c checks out m h2 h
    unfold resolveAux at h
    split at h
    · have hsplit : splitPath (S ++ "_" ++ Nat.repr (c - 1) ++ ext) =
          ⟨S ++ "_" ++ Nat.repr (c - 1), ext⟩ := by
        apply splitPath_stable _ _ ?_ hext
        intro hmt
        have hd := congrArg String.data hmt
        simp [String.data_append] at hd
      rw [hsplit] at h
      dsimp only at h
      rw [stripStem_append S c (by omega)] at h
      exact ih (c + 1) (checks + 1) out m (by omega) h
    · simp only [Option.some.injEq, Prod.mk.injEq] at h
      exact ⟨c - 1, by omega, h.1.symm⟩

/-- Non-accumulation of resolver suffixes for candidates with a stable
extension: the result is the candidate itself or the original stem with a
single underscore suffix. -/
theorem resolveAux_no_accumulation (dir : List String) (S ext : String)
    (hS : S ≠ "") (hext : StableExt ext) (fuel checks : Nat)
    (out : String) (m : Nat)
    (h : resolveAux dir fuel 1 (S ++ ext) checks = some (out, m)) :
    out = S ++ ext ∨ ∃ k, 1 ≤ k ∧ out = S ++ "_" ++ Nat.repr k ++ ext := by
  match fuel with
  | 0 => simp [resolveAux] at h
  | f + 1 =>
    unfold resolveAux at h
    split at h
    · right
      rw [splitPath_stable S ext hS hext] at h
      dsimp only at h
      rw [stripStem_one] at h
      exact resolveAux_shape dir S ext hS hext f 2 (checks + 1) out m
        (by omega) h
    · simp only [Option.some.injEq, Prod.mk.injEq] at h
      exact Or.inl h.1.symm

/-! Driver lemmas: per-file step behaviour and loop decomposition. -/

theorem stepFile_cover_none (dry_run : Bool) (st : FsState) (f : SrcFile)
    (h : f.cover = none) :
    stepFile dry_run st f = (st, [.processing f.name, .failExtract], none) := by
  unfold stepFile
  rw [h]

theorem stepFile_classify_fail (dry_run : Bool) (st : FsState) (f : SrcFile)
    (b : List Nat) (hc : f.cover = some b)
    (h : analyze_cover f.response = none ∨
      ∃ m, analyze_cover f.response = some m ∧ isTruthy m = false) :
    stepFile dry_run st f =
      (st, [.processing f.name, .failClassify], none) := by
  unfold stepFile
  rw [hc]
  rcases h with h | ⟨m, hm, ht⟩
  · rw [h]
  · rw [hm]
    simp [ht]

theorem stepFile_move_fail (st : FsState) (f : SrcFile) (b : List Nat)
    (m : Json) (nm res : String) (c : Nat)
    (hc : f.cover = some b) (hm : analyze_cover f.response = some m)
    (ht : isTruthy m = true)
    (hg : generate_new_name m f.suffix = .ok nm)
    (hr : resolveAux st.outNames (st.outNames.length + 2) 1 nm 0 =
      some (res, c))
    (hmv : f.renameOk = false) :
    stepFile false st f =
      (st, [.processing f.name, .moveError, .separator, .sleep], none) := by
  unfold stepFile
  rw [hc, hm]
  dsimp only
  rw [if_neg (by simp [ht] : ¬ isTruthy m = false), hg]
  dsimp only
  rw [hr]
  dsimp only
  rw [hmv]
  simp

theorem stepFile_resolved (dry_run : Bool) (st : FsState) (f : SrcFile)
    (b : List Nat) (m : Json) (nm res : String) (c : Nat)
    (hc : f.cover = some b) (hm : analyze_cover f.response = some m)
    (ht : isTruthy m = true)
    (hg : generate_new_name m f.suffix = .ok nm)
    (hr : resolveAux st.outNames (st.outNames.length + 2) 1 nm 0 =
      some (res, c)) :
    ∃ st' evs, stepFile dry_run st f = (st', evs, none) ∧
      evs.getLast? = some .sleep := by
  unfold stepFile
  rw [hc, hm]
  dsimp only
  rw [if_neg (by simp [ht] : ¬ isTruthy m = false), hg]
  dsimp only
  rw [hr]
  dsimp only
  cases dry_run
  · cases hrn : f.renameOk
    · exact ⟨st, [.processing f.name, .moveError, .separator, .sleep],
        by simp, rfl⟩
    · exact ⟨{ srcNames := st.srcNames.erase f.name,
               outNames := res :: st.outNames },
        [.processing f.name, .movedLog res, .separator, .sleep], by simp, rfl⟩
  · exact ⟨st, [.processing f.name, .dryRunLog f.name res, .separator, .sleep],
      by simp, rfl⟩

theorem stepFile_dry_vs_exec (st : FsState) (f : SrcFile)
    (b : List Nat) (m : Json) (nm res : String) (c : Nat)
    (hc : f.cover = some b) (hm : analyze_cover f.response = some m)
    (ht : isTruthy m = true)
    (hg : generate_new_name m f.suffix = .ok nm)
    (hr : resolveAux st.outNames (st.outNames.length + 2) 1 nm 0 =
      some (res, c))
    (hmv : f.renameOk = true) :
    stepFile true st f =
      (st, [.processing f.name, .dryRunLog f.name res, .separator, .sleep],
       none) ∧
    stepFile false st f =
      ({ srcNames := st.srcNames.erase f.name, outNames := res :: st.outNames },
       [.processing f.name, .movedLog res, .separator, .sleep], none) := by
  constructor
  · unfold stepFile
    rw [hc, hm]
    dsimp only
    rw [if_neg (by simp [ht] : ¬ isTruthy m = false), hg]
    dsimp only
    rw [hr]
    simp
  · unfold stepFile
    rw [hc, hm]
    dsimp only
    rw [if_neg (by simp [ht] : ¬ isTruthy m = false), hg]
    dsimp only
    rw [hr]
    dsimp only
    rw [hmv]
    simp

theorem stepFile_dry_state (st : FsState) (f : SrcFile) :
    (stepFile true st f).1 = st := by
  unfold stepFile
  repeat' split
  all_goals first
  | rfl
  | simp_all

theorem process_files_cons (dry_run : Bool) (st : FsState) (f : SrcFile)
    (fs : List SrcFile) :
    process_files dry_run st (f :: fs) =
      match stepFile dry_run st f with
      | (st', evs, some e) => (st', evs, some e)
      | (st', evs, none) =>
        match process_files dry_run st' fs with
        | (st'', evs', err) => (st'', evs ++ evs', err) := rfl

theorem process_files_dry_state :
    ∀ (fs : List SrcFile) (st : FsState), (process_files true st fs).1 = st := by
  intro fs
  induction fs with
  | nil => intro st; rfl
  | cons f fs ih =>
    intro st
    have hst := stepFile_dry_state st f
    rcases h : stepFile true st f with ⟨st', evs, err⟩
    rw [h] at hst
    dsimp at hst
    rw [process_files_cons, h]
    cases err with
    | some e => exact hst
    | none =>
      dsimp only
      rw [ih st']
      exact hst

theorem process_files_append (dry_run : Bool) :
    ∀ (fs₁ fs₂ : List SrcFile) (st st₁ : FsState) (log₁ : List Event),
      process_files dry_run st fs₁ = (st₁, log₁, none) →
      process_files dry_run st (fs₁ ++ fs₂) =
        ((process_files dry_run st₁ fs₂).1,
         log₁ ++ (process_files dry_run st₁ fs₂).2.1,
         (process_files dry_run st₁ fs₂).2.2) := by
  intro fs₁
  induction fs₁ with
  | nil =>
    intro fs₂ st st₁ log₁ h
    unfold process_files at h
    simp only [Prod.mk.injEq] at h
    obtain ⟨h1, h2, -⟩ := h
    rw [List.nil_append, h1, ← h2, List.nil_append]
  | cons f fs ih =>
    intro fs₂ st st₁ log₁ h
    rcases hstep : stepFile dry_run st f with ⟨st', evs, err⟩
    rw [process_files_cons, hstep] at h
    rw [List.cons_append, process_files_cons, hstep]
    cases err with
    | some e =>
      dsimp at h
      simp at h
    | none =>
      dsimp only at h ⊢
      rcases h2 : process_files dry_run st' fs with ⟨st'', evs', err'⟩
      rw [h2] at h
      dsimp only at h
      simp only [Prod.mk.injEq] at h
      obtain ⟨hst, hlog, herr⟩ := h
      have hfs : process_files dry_run st' fs = (st₁, evs', none) := by
        rw [h2, hst, herr]
      rw [ih fs₂ st' st₁ evs' hfs]
      dsimp only
      rw [← hlog, List.append_assoc]

/-! Sanitizer characterisation. -/

theorem foldl_removeAll :
    ∀ (cs : List Char) (name : String),
      cs.foldl removeAll name =
        ⟨name.data.filter (fun c => !cs.contains c)⟩ := by
  intro cs
  induction cs with
  | nil =>
    intro name
    simp only [List.foldl_nil, List.contains_nil, Bool.not_false]
    rw [List.filter_true, string_mk_data]
  | cons c cs ih =>
    intro name
    rw [List.foldl_cons, ih]
    have hdata : (removeAll name c).data =
        name.data.filter (fun x => !(x == c)) := rfl
    rw [hdata, List.filter_filter]
    congr 1
    apply List.filter_congr
    intro a _
    simp only [List.contains_cons, Bool.not_or, Bool.and_comm]

theorem sanitize_filename_filter (name : String) :
    sanitize_filename name =
      pyStrip ⟨name.data.filter (fun c => !invalid_chars.data.contains c)⟩ := by
  unfold sanitize_filename
  rw [foldl_removeAll]

/-! Metadata field access. -/

theorem dictGet_str (fields : List (String × Json))
    (h : ∀ kv ∈ fields, ∃ s, kv.2 = Json.str s) (key dflt_s : String) :
    ∃ s, dictGet fields key (.str dflt_s) = .str s := by
  unfold dictGet
  cases hf : fields.find? (fun kv => kv.1 == key) with
  | none => exact ⟨dflt_s, rfl⟩
  | some kv =>
    obtain ⟨s, hs⟩ := h kv (List.mem_of_find?_eq_some hf)
    exact ⟨s, by dsimp only; rw [hs]⟩

theorem generate_new_name_total (fields : List (String × Json))
    (h : ∀ kv ∈ fields, ∃ s, kv.2 = Json.str s) (ext : String) :
    ∃ out, generate_new_name (.obj fields) ext = .ok out := by
  obtain ⟨s1, e1⟩ := dictGet_str fields h "Application" "Unknown"
  obtain ⟨s2, e2⟩ := dictGet_str fields h "MarketScope" "WW"
  obtain ⟨s3, e3⟩ := dictGet_str fields h "FileName" "Untitled"
  obtain ⟨s4, e4⟩ := dictGet_str fields h "Source" "Unknown"
  obtain ⟨s5, e5⟩ := dictGet_str fields h "Date" "000000"
  refine ⟨sanitize_filename s1 ++ "-" ++ sanitize_filename s2 ++ "-" ++
    sanitize_filename s3 ++ "-" ++ sanitize_filename s4 ++ "-" ++
    sanitize_filename s5 ++ ext, ?_⟩
  unfold generate_new_name
  dsimp only
  rw [e1, e2, e3, e4, e5]
  rfl

/-! Classifier response cleaning. -/

theorem dropWhile_not_ws_head {c : Char} (hc : isPyWhitespace c = false)
    (cs : List Char) :
    List.dropWhile isPyWhitespace (c :: cs) = c :: cs := by
  rw [List.dropWhile_cons, if_neg (by simp [hc])]

theorem dropWhile_head_false {p : Char → Bool} {c : Char} {cs : List Char}
    (h : List.dropWhile p (c :: cs) = c :: cs) : p c = false := by
  have := List.dropWhile_eq_self_iff.mp h (by simp)
  simpa using this

theorem pyStripList_fix {l : List Char}
    (h1 : l.dropWhile isPyWhitespace = l)
    (h2 : l.reverse.dropWhile isPyWhitespace = l.reverse) :
    pyStripList l = l := by
  unfold pyStripList
  rw [h1, h2, List.reverse_reverse]

theorem pyStripList_cons_concat (a b : Char) (mid : List Char)
    (ha : isPyWhitespace a = false) (hb : isPyWhitespace b = false) :
    pyStripList (a :: mid ++ [b]) = a :: mid ++ [b] := by
  apply pyStripList_fix
  · exact dropWhile_not_ws_head ha _
  · rw [show ((a :: mid ++ [b]).reverse : List Char) =
      b :: (mid.reverse ++ [a]) from by simp]
    exact dropWhile_not_ws_head hb _

/-- A reply wrapped exactly as three backticks plus json, newline, payload,
newline, three backticks is cleaned to the payload, provided the payload
carries no whitespace at either end. -/
theorem analyze_cover_fenced (t : String) (j : Json)
    (h1 : t.data.dropWhile isPyWhitespace = t.data)
    (h2 : t.data.reverse.dropWhile isPyWhitespace = t.data.reverse)
    (hp : json_loads t = some j) :
    analyze_cover (some ("```json\n" ++ t ++ "\n```")) = some j := by
  cases htd : t.data with
  | nil =>
    unfold json_loads at hp
    rw [htd] at hp
    rw [show json_loads_chars [] = none from rfl] at hp
    exact Option.noConfusion hp
  | cons c0 cs0 =>
    have hc0 : isPyWhitespace c0 = false := by
      rw [htd] at h1
      exact dropWhile_head_false h1
    have hA : ("```json\n").data =
        ['\x60', '\x60', '\x60', 'j', 's', 'o', 'n', '\n'] := rfl
    have hB : ("\n```").data = ['\n', '\x60', '\x60', '\x60'] := rfl
    have hw : ("```json\n" ++ t ++ "\n```").data =
        '\x60' :: '\x60' :: '\x60' :: 'j' :: 's' :: 'o' :: 'n' :: '\n' ::
          (t.data ++ '\n' :: '\x60' :: '\x60' :: '\x60' :: []) := by
      rw [String.data_append, String.data_append, hA, hB]
      simp
    unfold analyze_cover
    dsimp only
    rw [hw]
    unfold clean_response
    dsimp only
    have hW2 : ('\x60' :: '\x60' :: '\x60' :: 'j' :: 's' :: 'o' :: 'n' ::
        '\n' :: (t.data ++ '\n' :: '\x60' :: '\x60' :: '\x60' :: []) :
          List Char) =
        '\x60' :: ('\x60' :: '\x60' :: 'j' :: 's' :: 'o' :: 'n' :: '\n' ::
          (t.data ++ ['\n', '\x60', '\x60'])) ++ ['\x60'] := by
      simp
    rw [hW2, pyStripList_cons_concat '\x60' '\x60' _ rfl rfl, ← hW2]
    rw [if_pos (show fenceLead.isPrefixOf
      ('\x60' :: '\x60' :: '\x60' :: 'j' :: 's' :: 'o' :: 'n' :: '\n' ::
        (t.data ++ '\n' :: '\x60' :: '\x60' :: '\x60' :: [])) = true
        from rfl)]
    rw [show List.drop 7 ('\x60' :: '\x60' :: '\x60' :: 'j' :: 's' :: 'o' ::
        'n' :: '\n' :: (t.data ++ '\n' :: '\x60' :: '\x60' :: '\x60' :: [])) =
      '\n' :: (t.data ++ '\n' :: '\x60' :: '\x60' :: '\x60' :: []) from rfl]
    have hsuf : fenceTail.isSuffixOf
        ('\n' :: (t.data ++ '\n' :: '\x60' :: '\x60' :: '\x60' :: [])) =
          true := by
      show (List.isPrefixOf fenceTail.reverse
        (('\n' :: (t.data ++ '\n' :: '\x60' :: '\x60' :: '\x60' ::
          [])).reverse)) = true
      rw [List.isPrefixOf_iff_prefix]
      apply List.reverse_prefix.mpr
      refine ⟨'\n' :: (t.data ++ ['\n']), ?_⟩
      rw [show fenceTail = ['\x60', '\x60', '\x60'] from rfl]
      simp
    rw [if_pos hsuf]
    have hC : ('\n' :: (t.data ++ '\n' :: '\x60' :: '\x60' :: '\x60' :: []) :
        List Char) = ('\n' :: (t.data ++ ['\n'])) ++ ['\x60', '\x60', '\x60'] := by
      simp
    rw [hC]
    rw [show (((('\n' :: (t.data ++ ['\n'])) ++ ['\x60', '\x60', '\x60']) :
      List Char).length - 3) = ('\n' :: (t.data ++ ['\n'])).length from by
      simp]
    rw [List.take_left]
    have hfinal : pyStripList ('\n' :: (t.data ++ ['\n'])) = t.data := by
      unfold pyStripList
      rw [List.dropWhile_cons,
        if_pos (show isPyWhitespace '\n' = true from rfl)]
      rw [htd, List.cons_append,
        dropWhile_not_ws_head hc0, ← List.cons_append, ← htd]
      rw [show ((t.data ++ ['\n']).reverse : List Char) =
        '\n' :: t.data.reverse from by simp]
      rw [List.dropWhile_cons,
        if_pos (show isPyWhitespace '\n' = true from rfl)]
      rw [h2, List.reverse_reverse]
    rw [hfinal]
    exact hp

/-! Claim theorems. -/

/-- Claim C1: for every metadata record in which any subset of the five
fields is absent, generate_new_name substitutes the documented default for
each absent field independently (Application to Unknown, MarketScope to WW,
FileName to Untitled, Source to Unknown, Date to 000000) and assembles the
result exactly as Application-MarketScope-FileName-Source-Date plus the
original extension; in particular the fully populated ADAS example yields
exactly ADAS-WW-車載傳感器市場分析-MS-220625.pdf. -/
theorem claim_C1_synthesizer_defaults :
    (∀ (a s t src d : Option String) (ext : String),
      generate_new_name (mkMeta a s t src d) ext =
        .ok (sanitize_filename (a.getD "Unknown") ++ "-" ++
             sanitize_filename (s.getD "WW") ++ "-" ++
             sanitize_filename (t.getD "Untitled") ++ "-" ++
             sanitize_filename (src.getD "Unknown") ++ "-" ++
             sanitize_filename (d.getD "000000") ++ ext)) ∧
    generate_new_name (.obj [("Application", .str "ADAS"),
        ("MarketScope", .str "WW"), ("FileName", .str "車載傳感器市場分析"),
        ("Source", .str "MS"), ("Date", .str "220625")]) ".pdf" =
      .ok "ADAS-WW-車載傳感器市場分析-MS-220625.pdf" := by
  constructor
  · intro a s t src d ext
    cases a <;> cases s <;> cases t <;> cases src <;> cases d <;> rfl
  · rfl

/-- Claim C2: the sanitizer removes exactly the nine Windows-invalid
characters and no other characters, and trims leading and trailing
whitespace; and sanitization is applied independently to each of the five
field values before assembly, not to the assembled string. -/
theorem claim_C2_sanitizer :
    (∀ name : String,
      sanitize_filename name =
        pyStrip ⟨name.data.filter (fun c => !invalid_chars.data.contains c)⟩) ∧
    (∀ (a s t src d ext : String),
      generate_new_name (.obj [("Application", .str a),
          ("MarketScope", .str s), ("FileName", .str t),
          ("Source", .str src), ("Date", .str d)]) ext =
        .ok (sanitize_filename a ++ "-" ++ sanitize_filename s ++ "-" ++
             sanitize_filename t ++ "-" ++ sanitize_filename src ++ "-" ++
             sanitize_filename d ++ ext)) := by
  constructor
  · exact sanitize_filename_filter
  · intro a s t src d ext
    rfl

/-- Claim C3: for every N at least 1, if exactly the files base.pdf,
base_1.pdf, ..., base_(N-1).pdf already exist in the output directory, the
collision loop applied to candidate base.pdf terminates (for any fuel of at
least N + 1 iterations) and yields base_N.pdf, performing exactly N + 1
existence checks, hence at most N + 1.  The stem base ranges over nonempty
file stems. -/
theorem claim_C3_collision_resolver (base : String) (hb : base ≠ "")
    (N : Nat) (hN : 1 ≤ N) (fuel : Nat) (hf : N + 1 ≤ fuel) :
    resolveAux (dirN base N) fuel 1 (base ++ ".pdf") 0 =
      some (suffixed base N, N + 1) :=
  resolveAux_dirN base hb N hN fuel hf

theorem claim_C3_witness :
    (("base" : String) ≠ "" ∧ 1 ≤ 2 ∧ 2 + 1 ≤ 3) ∧
    resolveAux (dirN "base" 2) 3 1 ("base" ++ ".pdf") 0 =
      some (suffixed "base" 2, 3) :=
  ⟨⟨by decide, by decide, by decide⟩,
   claim_C3_collision_resolver "base" (by decide) 2 (by decide) 3 (by decide)⟩

/-- Counterexample to claim C4 as stated: the claim quantifies over every
candidate path and every directory state, but for the candidate named a.
(a name whose pathlib suffix is empty and whose stem ends in a dot) with
a. and a._1 existing, the resolver produces a_2._1, in which the previously
applied suffix _1 and the new suffix _2 both occur: the suffixes have
accumulated, because on the second iteration pathlib re-splits the name
a._1 into stem a and suffix ._1 and the stem no longer ends in _1. -/
theorem claim_C4_counterexample :
    resolveAux ["a.", "a._1"] 5 1 "a." 0 = some ("a_2._1", 3) ∧
    containsSub "a_2._1" "_1" = true ∧ containsSub "a_2._1" "_2" = true :=
  ⟨rfl, rfl, rfl⟩

/-- Claim C4 as amended: on each loop iteration with counter above one whose
current stem ends with the previously applied suffix, that suffix is
stripped exactly before the new one is appended; and for every candidate
whose name is a nonempty stem followed by a stable extension (a dot plus a
nonempty dot-free remainder, such as every *.pdf name), every resolver
result is the candidate itself or the original stem carrying exactly one
underscore suffix, so suffixes never accumulate on such candidates. -/
theorem claim_C4_strip_no_accumulation :
    (∀ (S : String) (c : Nat), 1 < c →
      stripStem c (S ++ "_" ++ Nat.repr (c - 1)) = S) ∧
    (∀ (dir : List String) (S ext : String) (fuel checks : Nat)
        (out : String) (m : Nat), S ≠ "" → StableExt ext →
      resolveAux dir fuel 1 (S ++ ext) checks = some (out, m) →
      out = S ++ ext ∨ ∃ k, 1 ≤ k ∧ out = S ++ "_" ++ Nat.repr k ++ ext) :=
  ⟨fun S c hc => stripStem_append S c hc,
   fun dir S ext fuel checks out m hS hext h =>
     resolveAux_no_accumulation dir S ext hS hext fuel checks out m h⟩

theorem claim_C4_witness :
    (1 < 2 ∧ stripStem 2 ("base" ++ "_" ++ Nat.repr 1) = "base") ∧
    ((("base" : String) ≠ "" ∧ StableExt ".pdf" ∧
      resolveAux ["base.pdf", "base_1.pdf"] 5 1 ("base" ++ ".pdf") 0 =
        some ("base_2.pdf", 3)) ∧
     ("base_2.pdf" = "base" ++ ".pdf" ∨
       ∃ k, 1 ≤ k ∧ "base_2.pdf" = "base" ++ "_" ++ Nat.repr k ++ ".pdf")) :=
  ⟨⟨by decide, claim_C4_strip_no_accumulation.1 "base" 2 (by decide)⟩,
   ⟨by decide, stableExt_pdf, by decide⟩,
   claim_C4_strip_no_accumulation.2 ["base.pdf", "base_1.pdf"] "base" ".pdf"
     5 0 "base_2.pdf" 3 (by decide) stableExt_pdf (by decide)⟩

/-- Counterexample to claim C9 as stated: the JSON object with the single
field Application holding null is a metadata record produced by a
successful classification (it parses and is truthy), yet the Filename
Synthesizer raises AttributeError on it, because null has no replace
method; so Classified to Named is not total over all JSON-like records. -/
theorem claim_C9_counterexample :
    json_loads "\x7b\"Application\": null\x7d" =
      some (.obj [("Application", Json.null)]) ∧
    isTruthy (.obj [("Application", Json.null)]) = true ∧
    generate_new_name (.obj [("Application", Json.null)]) ".pdf" =
      .error .attributeError :=
  ⟨rfl, rfl, rfl⟩

/-- Claim C9 as amended: for every metadata record that is a JSON object all
of whose present field values are strings, the Filename Synthesizer is
total: generate_new_name returns a result and never raises. -/
theorem claim_C9_synthesizer_total (fields : List (String × Json))
    (h : ∀ kv ∈ fields, ∃ s, kv.2 = Json.str s) (ext : String) :
    ∃ out, generate_new_name (.obj fields) ext = .ok out :=
  generate_new_name_total fields h ext

theorem claim_C9_witness :
    (∀ kv ∈ [("Application", Json.str "AI")], ∃ s, kv.2 = Json.str s) ∧
    ∃ out, generate_new_name (.obj [("Application", Json.str "AI")])
      ".pdf" = .ok out :=
  ⟨fun kv hkv => by
    rw [List.mem_singleton.mp hkv]
    exact ⟨"AI", rfl⟩,
   claim_C9_synthesizer_total [("Application", Json.str "AI")]
     (fun kv hkv => by
       rw [List.mem_singleton.mp hkv]
       exact ⟨"AI", rfl⟩) ".pdf"⟩

/-- Claim C10: when the classification reply parses successfully to a falsy
object (such as the empty JSON object), the driver treats the result as a
classification failure: the file is skipped and reported failed, the state
is unchanged, and the record never reaches the Filename Synthesizer (the
step emits no naming, resolution, or move events). -/
theorem claim_C10_falsy_metadata (dry_run : Bool) (st : FsState)
    (f : SrcFile) (b : List Nat) (m : Json) (hc : f.cover = some b)
    (hm : analyze_cover f.response = some m) (ht : isTruthy m = false) :
    stepFile dry_run st f =
      (st, [.processing f.name, .failClassify], none) :=
  stepFile_classify_fail dry_run st f b hc (Or.inr ⟨m, hm, ht⟩)

theorem claim_C10_witness :
    ((SrcFile.mk "r" ".pdf" (some [0]) (some "\x7b\x7d") true).cover =
        some [0] ∧
     analyze_cover (SrcFile.mk "r" ".pdf" (some [0])
        (some "\x7b\x7d") true).response = some (.obj []) ∧
     isTruthy (.obj []) = false) ∧
    stepFile false (FsState.mk ["r.pdf"] [])
        (SrcFile.mk "r" ".pdf" (some [0]) (some "\x7b\x7d") true) =
      (FsState.mk ["r.pdf"] [],
       [.processing (SrcFile.mk "r" ".pdf" (some [0])
          (some "\x7b\x7d") true).name, .failClassify], none) :=
  ⟨⟨rfl, rfl, rfl⟩,
   claim_C10_falsy_metadata false (FsState.mk ["r.pdf"] [])
     (SrcFile.mk "r" ".pdf" (some [0]) (some "\x7b\x7d") true)
     [0] (.obj []) rfl rfl rfl⟩

/-- Claim C5: a per-file soft failure (cover extraction returning none,
classification returning none or a falsy record, or an OS-level error during
the move) affects only that file: the step logs the failure, leaves the
filesystem state, and hence the source file, unchanged, raises nothing past
the per-file boundary, and the remaining files are processed exactly as they
would be from the same state. -/
theorem claim_C5_soft_failure_isolation (dry_run : Bool)
    (st st₁ : FsState) (fs₁ fs₂ : List SrcFile) (f : SrcFile)
    (log₁ : List Event)
    (h₁ : process_files dry_run st fs₁ = (st₁, log₁, none))
    (hf : f.cover = none ∨
      ((∃ b, f.cover = some b) ∧
        (analyze_cover f.response = none ∨
          ∃ m, analyze_cover f.response = some m ∧ isTruthy m = false)) ∨
      (dry_run = false ∧ f.renameOk = false ∧ (∃ b, f.cover = some b) ∧
        ∃ m nm res c, analyze_cover f.response = some m ∧
          isTruthy m = true ∧ generate_new_name m f.suffix = .ok nm ∧
          resolveAux st₁.outNames (st₁.outNames.length + 2) 1 nm 0 =
            some (res, c))) :
    ∃ evF, stepFile dry_run st₁ f = (st₁, evF, none) ∧
      (evF = [.processing f.name, .failExtract] ∨
       evF = [.processing f.name, .failClassify] ∨
       evF = [.processing f.name, .moveError, .separator, .sleep]) ∧
      process_files dry_run st (fs₁ ++ f :: fs₂) =
        ((process_files dry_run st₁ fs₂).1,
         log₁ ++ evF ++ (process_files dry_run st₁ fs₂).2.1,
         (process_files dry_run st₁ fs₂).2.2) := by
  have hstep : ∃ evF, stepFile dry_run st₁ f = (st₁, evF, none) ∧
      (evF = [.processing f.name, .failExtract] ∨
       evF = [.processing f.name, .failClassify] ∨
       evF = [.processing f.name, .moveError, .separator, .sleep]) := by
    rcases hf with h | ⟨⟨b, hb⟩, hcl⟩ |
      ⟨hdry, hmv, ⟨b, hb⟩, m, nm, res, c, hm, ht, hg, hr⟩
    · exact ⟨_, stepFile_cover_none dry_run st₁ f h, Or.inl rfl⟩
    · exact ⟨_, stepFile_classify_fail dry_run st₁ f b hb hcl,
        Or.inr (Or.inl rfl)⟩
    · subst hdry
      exact ⟨_, stepFile_move_fail st₁ f b m nm res c hb hm ht hg hr hmv,
        Or.inr (Or.inr rfl)⟩
  obtain ⟨evF, hstepEq, hdisj⟩ := hstep
  refine ⟨evF, hstepEq, hdisj, ?_⟩
  rw [process_files_append dry_run fs₁ (f :: fs₂) st st₁ log₁ h₁]
  have hcons : process_files dry_run st₁ (f :: fs₂) =
      ((process_files dry_run st₁ fs₂).1,
       evF ++ (process_files dry_run st₁ fs₂).2.1,
       (process_files dry_run st₁ fs₂).2.2) := by
    rw [process_files_cons, hstepEq]
  rw [hcons]
  dsimp only
  rw [List.append_assoc]

/-- Claim C6: in dry-run mode no file on disk is created, deleted, or
renamed by the per-file pipeline (the filesystem state after any run equals
the initial state); and for a file whose classification, naming, and
resolution succeed, the dry-run step and the execute step compute the same
destination, differing only in the rename versus the log line. -/
theorem claim_C6_dry_run :
    (∀ (fs : List SrcFile) (st : FsState),
      (process_files true st fs).1 = st) ∧
    (∀ (st : FsState) (f : SrcFile) (b : List Nat) (m : Json)
        (nm res : String) (c : Nat), f.cover = some b →
      analyze_cover f.response = some m → isTruthy m = true →
      generate_new_name m f.suffix = .ok nm →
      resolveAux st.outNames (st.outNames.length + 2) 1 nm 0 =
        some (res, c) →
      f.renameOk = true →
      stepFile true st f =
        (st, [.processing f.name, .dryRunLog f.name res, .separator, .sleep],
         none) ∧
      stepFile false st f =
        ({ srcNames := st.srcNames.erase f.name,
           outNames := res :: st.outNames },
         [.processing f.name, .movedLog res, .separator, .sleep], none)) :=
  ⟨process_files_dry_state,
   fun st f b m nm res c hc hm ht hg hr hmv =>
     stepFile_dry_vs_exec st f b m nm res c hc hm ht hg hr hmv⟩

/-- Counterexample to claim C7 as stated: a reply that is a valid JSON
object wrapped in plain three-backtick fence markers (without the json
language tag) is not stripped of its leading fence, so analyze_cover
returns none instead of the parsed record. -/
theorem claim_C7_counterexample :
    json_loads "\x7b\"Application\": \"AI\"\x7d" =
      some (.obj [("Application", .str "AI")]) ∧
    analyze_cover (some ("```\n\x7b\"Application\": \"AI\"\x7d\n```")) =
      none :=
  ⟨rfl, rfl⟩

/-- Claim C7 as amended: analyze_cover returns none on a raised network
error and on any cleaned reply that fails to parse; it strips a leading
three-backtick-json marker and a trailing three-backtick marker, so a valid
JSON payload wrapped exactly that way yields the parsed record (a leading
bare three-backtick fence is not stripped). -/
theorem claim_C7_classifier :
    (analyze_cover none = none) ∧
    (∀ raw : String, json_loads_chars (clean_response raw.data) = none →
      analyze_cover (some raw) = none) ∧
    (∀ (t : String) (j : Json),
      t.data.dropWhile isPyWhitespace = t.data →
      t.data.reverse.dropWhile isPyWhitespace = t.data.reverse →
      json_loads t = some j →
      analyze_cover (some ("```json\n" ++ t ++ "\n```")) = some j) :=
  ⟨rfl,
   fun raw h => h,
   fun t j h1 h2 hp => analyze_cover_fenced t j h1 h2 hp⟩

/-- Counterexample to claim C8 as stated: a file whose cover extraction
fails is finished without any pacing sleep (the loop body reaches continue
before the sleep call), so the delay is not imposed after every processed
file. -/
theorem claim_C8_counterexample :
    stepFile true (FsState.mk ["report.pdf"] [])
        (SrcFile.mk "report" ".pdf" none (some "x") true) =
      (FsState.mk ["report.pdf"] [],
       [.processing "report.pdf", .failExtract], none) ∧
    Event.sleep ∉ [Event.processing "report.pdf", Event.failExtract] :=
  ⟨rfl, by decide⟩

/-- Claim C8 as amended: the pacing sleep runs after every file that
reaches the dry-run or rename stage, success or move failure alike, but a
file skipped by an extraction or classification failure proceeds to the
next file without the delay. -/
theorem claim_C8_pacing :
    (∀ (dry_run : Bool) (st : FsState) (f : SrcFile), f.cover = none →
      stepFile dry_run st f =
        (st, [.processing f.name, .failExtract], none)) ∧
    (∀ (dry_run : Bool) (st : FsState) (f : SrcFile) (b : List Nat),
      f.cover = some b →
      (analyze_cover f.response = none ∨
        ∃ m, analyze_cover f.response = some m ∧ isTruthy m = false) →
      stepFile dry_run st f =
        (st, [.processing f.name, .failClassify], none)) ∧
    (∀ (dry_run : Bool) (st : FsState) (f : SrcFile) (b : List Nat)
        (m : Json) (nm res : String) (c : Nat), f.cover = some b →
      analyze_cover f.response = some m → isTruthy m = true →
      generate_new_name m f.suffix = .ok nm →
      resolveAux st.outNames (st.outNames.length + 2) 1 nm 0 =
        some (res, c) →
      ∃ st' evs, stepFile dry_run st f = (st', evs, none) ∧
        evs.getLast? = some .sleep) :=
  ⟨fun dry_run st f h => stepFile_cover_none dry_run st f h,
   fun dry_run st f b hb hcl => stepFile_classify_fail dry_run st f b hb hcl,
   fun dry_run st f b m nm res c hc hm ht hg hr =>
     stepFile_resolved dry_run st f b m nm res c hc hm ht hg hr⟩

theorem claim_C5_witness :
    (process_files false fixtureState0 [fixtureFile1] =
        (fixtureState1, fixtureLog1, none) ∧
     fixtureFile2.cover = none) ∧
    ∃ evF, stepFile false fixtureState1 fixtureFile2 =
        (fixtureState1, evF, none) ∧
      (evF = [.processing fixtureFile2.name, .failExtract] ∨
       evF = [.processing fixtureFile2.name, .failClassify] ∨
       evF = [.processing fixtureFile2.name, .moveError, .separator,
         .sleep]) ∧
      process_files false fixtureState0
          ([fixtureFile1] ++ fixtureFile2 :: [fixtureFile3]) =
        ((process_files false fixtureState1 [fixtureFile3]).1,
         fixtureLog1 ++ evF ++
           (process_files false fixtureState1 [fixtureFile3]).2.1,
         (process_files false fixtureState1 [fixtureFile3]).2.2) :=
  ⟨⟨rfl, rfl⟩,
   claim_C5_soft_failure_isolation false fixtureState0 fixtureState1
     [fixtureFile1] [fixtureFile3] fixtureFile2 fixtureLog1 rfl
     (Or.inl rfl)⟩

theorem claim_C6_witness :
    (fixtureFile1.cover = some [0] ∧
     analyze_cover fixtureFile1.response = some fixtureMeta1 ∧
     isTruthy fixtureMeta1 = true ∧
     generate_new_name fixtureMeta1 fixtureFile1.suffix =
       .ok "AI-WW-T1-GS-240101.pdf" ∧
     resolveAux fixtureState0.outNames (fixtureState0.outNames.length + 2) 1
       "AI-WW-T1-GS-240101.pdf" 0 = some ("AI-WW-T1-GS-240101.pdf", 1) ∧
     fixtureFile1.renameOk = true) ∧
    (stepFile true fixtureState0 fixtureFile1 =
       (fixtureState0,
        [.processing fixtureFile1.name,
         .dryRunLog fixtureFile1.name "AI-WW-T1-GS-240101.pdf", .separator,
         .sleep], none) ∧
     stepFile false fixtureState0 fixtureFile1 =
       ({ srcNames := fixtureState0.srcNames.erase fixtureFile1.name,
          outNames := "AI-WW-T1-GS-240101.pdf" :: fixtureState0.outNames },
        [.processing fixtureFile1.name,
         .movedLog "AI-WW-T1-GS-240101.pdf", .separator, .sleep], none)) :=
  ⟨⟨rfl, rfl, rfl, rfl, rfl, rfl⟩,
   claim_C6_dry_run.2 fixtureState0 fixtureFile1 [0] fixtureMeta1
     "AI-WW-T1-GS-240101.pdf" "AI-WW-T1-GS-240101.pdf" 1
     rfl rfl rfl rfl rfl rfl⟩

theorem claim_C7_witness :
    (fencedPayload.data.dropWhile isPyWhitespace = fencedPayload.data ∧
     fencedPayload.data.reverse.dropWhile isPyWhitespace =
       fencedPayload.data.reverse ∧
     json_loads fencedPayload = some (.obj [("Application", .str "AI")])) ∧
    analyze_cover (some ("```json\n" ++ fencedPayload ++ "\n```")) =
      some (.obj [("Application", .str "AI")]) :=
  ⟨⟨rfl, rfl, rfl⟩,
   claim_C7_classifier.2.2 fencedPayload (.obj [("Application", .str "AI")])
     rfl rfl rfl⟩

theorem claim_C8_witness :
    (fixtureFile2.cover = none ∧
     stepFile false fixtureState1 fixtureFile2 =
       (fixtureState1, [.processing fixtureFile2.name, .failExtract],
        none)) ∧
    ∃ st' evs, stepFile false fixtureState0 fixtureFile1 =
        (st', evs, none) ∧ evs.getLast? = some Event.sleep :=
  ⟨⟨rfl, claim_C8_pacing.1 false fixtureState1 fixtureFile2 rfl⟩,
   claim_C8_pacing.2.2 false fixtureState0 fixtureFile1 [0] fixtureMeta1
     "AI-WW-T1-GS-240101.pdf" "AI-WW-T1-GS-240101.pdf" 1
     rfl rfl rfl rfl rfl⟩

end PdfRenamer
